import Mathlib

/-!
Shallow embedding of `src/imageProcessing/functions.py`: a randomized audio
augmentation library (gated transforms, Compose, OneOf).

Waveforms are modelled as lists of exact rationals (the float samples).
The process-wide numpy random source is modelled as an oracle `Rng` of draw
functions indexed by a tick counter: every primitive draw consumes one tick,
so transforms have type `Wave → ℕ → Wave × ℕ` (waveform and tick in,
waveform and tick out).  External numeric primitives that the code calls but
does not define (float `10 ** x`, `librosa.effects.pitch_shift`) are passed
in as explicit function parameters, mirroring the spec's "opaque
capabilities".  Python `__init__` bodies are modelled as `Except String`
constructors so that the one `assert` in `TimeShift.__init__` is visible as
an error value.
-/

/-- A waveform: ordered sequence of amplitude samples. -/
abbrev Wave := List ℚ

/-- A transform's runtime shape: waveform and RNG tick in, waveform and tick out. -/
abbrev Tfm := Wave → ℕ → Wave × ℕ

/-- Oracle for the process-wide numpy random source.  Each field gives the
result of the corresponding numpy draw at a given tick; callers pass the
bounds the code passes. -/
structure Rng where
  /-- result of `np.random.rand()` at a tick -/
  rand : ℕ → ℚ
  /-- result of `np.random.uniform(lo, hi)` at a tick -/
  unif : ℕ → ℚ → ℚ → ℚ
  /-- sample `i` of the `np.random.randn(n)` call made at a tick -/
  gauss : ℕ → ℕ → ℚ
  /-- sample `i` of the `cn.powerlaw_psd_gaussian(1, n)` call made at a tick -/
  pink : ℕ → ℕ → ℚ
  /-- result of `np.random.randint(lo, hi)` at a tick -/
  randint : ℕ → ℤ → ℤ → ℤ
  /-- result of `np.random.choice(n)` at a tick -/
  choice : ℕ → ℕ → ℕ

/-- `np.random.randn(n)`: the length-`n` white-noise array drawn at tick `t`. -/
def randn (o : Rng) (t n : ℕ) : Wave :=
  (List.range n).map (o.gauss t)

/-- `cn.powerlaw_psd_gaussian(1, n)`: the length-`n` pink-noise array drawn
at tick `t` (the exponent-1 spectral colouring lives in the external
generator, i.e. in the oracle). -/
def pinkDraw (o : Rng) (t n : ℕ) : Wave :=
  (List.range n).map (o.pink t)

/-- `np.sqrt(v ** 2).max()`: pointwise `|v i|`, then the maximum.  The fold
starts at 0, which agrees with the numpy reduction on every non-empty array
since all entries are non-negative. -/
def peakAmp (y : Wave) : ℚ :=
  (y.map (fun a => |a|)).foldr max 0

/-- `AudioTransform`: gate state shared by every concrete transform. -/
structure AudioTransform where
  alwaysApply : Bool
  p : ℚ

/-- `AudioTransform.__init__`: stores the two fields; performs no validation. -/
def AudioTransform.init (alwaysApply : Bool) (p : ℚ) : Except String AudioTransform :=
  .ok ⟨alwaysApply, p⟩

/-- `AudioTransform.__call__`: the probability gate.  With `always_apply`
set, run `apply` without consuming a draw; otherwise consume one uniform
draw `r` and run `apply` iff `r < p`, else return the input unchanged. -/
def AudioTransform.call (o : Rng) (st : AudioTransform) (ap : Tfm) : Tfm :=
  fun y t =>
    if st.alwaysApply then ap y t
    else if o.rand t < st.p then ap y (t + 1)
    else (y, t + 1)

/-- `Compose`: ordered list of child transforms. -/
structure Compose where
  transforms : List Tfm

/-- `Compose.__call__`: `for trns in self.transforms: y = trns(y)`. -/
def Compose.call (c : Compose) : Tfm :=
  fun y t => c.transforms.foldl (fun acc f => f acc.1 acc.2) (y, t)

/-- `OneOf`: candidate list of child transforms. -/
structure OneOf where
  transforms : List Tfm

/-- `OneOf.__call__`: draw `trns_idx = np.random.choice(len(transforms))`
(one tick), then delegate to that child.  An out-of-range index (numpy would
raise, e.g. on an empty list) is totalised to returning the input. -/
def OneOf.call (o : Rng) (c : OneOf) : Tfm :=
  fun y t =>
    let i := o.choice t c.transforms.length
    match c.transforms[i]? with
    | some f => f y (t + 1)
    | none => (y, t + 1)

/-- `GaussianNoiseSNR` configuration. -/
structure GaussianNoiseSNR extends AudioTransform where
  minSnr : ℚ
  maxSnr : ℚ

/-- `GaussianNoiseSNR.__init__`: super call, then store the SNR bounds. -/
def GaussianNoiseSNR.init (a : Bool) (p minSnr maxSnr : ℚ) :
    Except String GaussianNoiseSNR :=
  (AudioTransform.init a p).map (fun base => ⟨base, minSnr, maxSnr⟩)

/-- `GaussianNoiseSNR.apply`.  `tenPow` is the float `10 ** x` primitive.
Draws `snr` (one tick), computes `a_signal` and `a_noise`, draws the white
noise (one tick), and mixes `y + white_noise * 1 / a_white * a_noise`
elementwise; the `astype(y.dtype)` cast is the identity in this exact
model. -/
def GaussianNoiseSNR.apply (o : Rng) (tenPow : ℚ → ℚ) (st : GaussianNoiseSNR) : Tfm :=
  fun y t =>
    let snr := o.unif t st.minSnr st.maxSnr
    let aSignal := peakAmp y
    let aNoise := aSignal / tenPow (snr / 20)
    let whiteNoise := randn o (t + 1) y.length
    let aWhite := peakAmp whiteNoise
    (y.zipWith (fun a b => a + b * 1 / aWhite * aNoise) whiteNoise, t + 2)

/-- `GaussianNoiseSNR.__call__` = inherited gate over the overridden apply. -/
def GaussianNoiseSNR.invoke (o : Rng) (tenPow : ℚ → ℚ) (st : GaussianNoiseSNR) : Tfm :=
  AudioTransform.call o st.toAudioTransform (GaussianNoiseSNR.apply o tenPow st)

/-- `PinkNoiseSNR` configuration. -/
structure PinkNoiseSNR extends AudioTransform where
  minSnr : ℚ
  maxSnr : ℚ

/-- `PinkNoiseSNR.__init__`: super call, then store the SNR bounds. -/
def PinkNoiseSNR.init (a : Bool) (p minSnr maxSnr : ℚ) :
    Except String PinkNoiseSNR :=
  (AudioTransform.init a p).map (fun base => ⟨base, minSnr, maxSnr⟩)

/-- `PinkNoiseSNR.apply`: identical to the Gaussian mix but the noise comes
from the external pink-noise generator. -/
def PinkNoiseSNR.apply (o : Rng) (tenPow : ℚ → ℚ) (st : PinkNoiseSNR) : Tfm :=
  fun y t =>
    let snr := o.unif t st.minSnr st.maxSnr
    let aSignal := peakAmp y
    let aNoise := aSignal / tenPow (snr / 20)
    let pinkNoise := pinkDraw o (t + 1) y.length
    let aPink := peakAmp pinkNoise
    (y.zipWith (fun a b => a + b * 1 / aPink * aNoise) pinkNoise, t + 2)

/-- `PinkNoiseSNR.__call__` = inherited gate over the overridden apply. -/
def PinkNoiseSNR.invoke (o : Rng) (tenPow : ℚ → ℚ) (st : PinkNoiseSNR) : Tfm :=
  AudioTransform.call o st.toAudioTransform (PinkNoiseSNR.apply o tenPow st)

/-- `PitchShift` configuration. -/
structure PitchShift extends AudioTransform where
  maxSteps : ℤ
  sr : ℤ

/-- `PitchShift.__init__`: super call, then store `max_steps` and `sr`. -/
def PitchShift.init (a : Bool) (p : ℚ) (maxSteps sr : ℤ) :
    Except String PitchShift :=
  (AudioTransform.init a p).map (fun base => ⟨base, maxSteps, sr⟩)

/-- `PitchShift.apply`.  `prim` is `librosa.effects.pitch_shift`.  Draws
`n_steps = np.random.randint(-max_steps, max_steps)` (one tick) and calls
the primitive. -/
def PitchShift.apply (o : Rng) (prim : ℤ → ℤ → Wave → Wave) (st : PitchShift) : Tfm :=
  fun y t =>
    let nSteps := o.randint t (-st.maxSteps) st.maxSteps
    (prim st.sr nSteps y, t + 1)

/-- `PitchShift.__call__` = inherited gate over the overridden apply. -/
def PitchShift.invoke (o : Rng) (prim : ℤ → ℤ → Wave → Wave) (st : PitchShift) : Tfm :=
  AudioTransform.call o st.toAudioTransform (PitchShift.apply o prim st)

/-- `np.roll(y, s)`: circular rotation moving each element forward by `s`
positions (mod length).  `List.rotate` rotates left, so rolling by `s` is a
left rotation by `(-s) mod length`. -/
def roll (y : Wave) (s : ℤ) : Wave :=
  y.rotate (((-s) % (y.length : ℤ)).toNat)

/-- Python slice start for `y[s:]` on a length-`n` sequence: negative `s`
counts from the end (clamped at 0), non-negative `s` is clamped at `n`. -/
def pyStart (n : ℕ) (s : ℤ) : ℕ :=
  if s < 0 then ((n : ℤ) + s).toNat else min n s.toNat

/-- `augmented[:k] = 0`: zero the first `k` entries (clamped). -/
def zeroFirst (y : Wave) (k : ℕ) : Wave :=
  (y.take k).map (fun _ => (0 : ℚ)) ++ y.drop k

/-- `augmented[s:] = 0`: zero the entries from Python index `s` on. -/
def zeroFrom (y : Wave) (s : ℤ) : Wave :=
  y.take (pyStart y.length s) ++ (y.drop (pyStart y.length s)).map (fun _ => (0 : ℚ))

/-- `TimeShift` configuration. -/
structure TimeShift extends AudioTransform where
  maxShiftSecond : ℤ
  sr : ℤ
  paddingMode : String

/-- `TimeShift.__init__`: super call, then
`assert padding_mode in ["replace", "zero"]`, then store the fields. -/
def TimeShift.init (a : Bool) (p : ℚ) (maxShiftSecond sr : ℤ) (paddingMode : String) :
    Except String TimeShift :=
  (AudioTransform.init a p).bind (fun base =>
    if paddingMode = "replace" ∨ paddingMode = "zero" then
      .ok ⟨base, maxShiftSecond, sr, paddingMode⟩
    else .error "padding_mode must be either replace or zero")

/-- `TimeShift.apply`: draw
`shift = np.random.randint(-sr*max_shift_second, sr*max_shift_second)`
(one tick), roll, and in `"zero"` mode assign `augmented[:shift] = 0` when
`shift > 0`, else `augmented[shift:] = 0`. -/
def TimeShift.apply (o : Rng) (st : TimeShift) : Tfm :=
  fun y t =>
    let shift := o.randint t (-(st.sr * st.maxShiftSecond)) (st.sr * st.maxShiftSecond)
    let augmented := roll y shift
    (if st.paddingMode = "zero" then
      if 0 < shift then zeroFirst augmented shift.toNat
      else zeroFrom augmented shift
    else augmented, t + 1)

/-- `TimeShift.__call__` = inherited gate over the overridden apply. -/
def TimeShift.invoke (o : Rng) (st : TimeShift) : Tfm :=
  AudioTransform.call o st.toAudioTransform (TimeShift.apply o st)

/-!
## Heap-level model

The no-in-place-mutation claim is about array identity, so the value-level
model above is complemented by a store model: waveforms live in cells of a
`Heap`, numpy expressions that build fresh arrays allocate, and the one
genuinely imperative construct in the code (`augmented[...] = 0` slice
assignment) is a `write` to the freshly allocated cell.
-/

/-- A store of waveform cells: `next` is the next fresh reference. -/
structure Heap where
  store : ℕ → Wave
  next : ℕ

/-- Allocate a fresh cell holding `v`. -/
def Heap.alloc (h : Heap) (v : Wave) : ℕ × Heap :=
  (h.next, ⟨fun r => if r = h.next then v else h.store r, h.next + 1⟩)

/-- Overwrite cell `r` with `v` (in-place array assignment). -/
def Heap.write (h : Heap) (r : ℕ) (v : Wave) : Heap :=
  ⟨fun x => if x = r then v else h.store x, h.next⟩

/-- Heap-level transform shape: input ref, tick, heap in; result ref, tick,
heap out. -/
abbrev TfmH := ℕ → ℕ → Heap → ℕ × ℕ × Heap

/-- Heap-level `GaussianNoiseSNR.apply`: reads the input cell and allocates
the mixed array (numpy `+` and `astype` both build new arrays; one
allocation suffices to model that the result is fresh). -/
def GaussianNoiseSNR.applyH (o : Rng) (tenPow : ℚ → ℚ) (st : GaussianNoiseSNR) : TfmH :=
  fun r t h =>
    let out := h.alloc ((GaussianNoiseSNR.apply o tenPow st (h.store r) t).1)
    (out.1, t + 2, out.2)

/-- Heap-level `PinkNoiseSNR.apply`. -/
def PinkNoiseSNR.applyH (o : Rng) (tenPow : ℚ → ℚ) (st : PinkNoiseSNR) : TfmH :=
  fun r t h =>
    let out := h.alloc ((PinkNoiseSNR.apply o tenPow st (h.store r) t).1)
    (out.1, t + 2, out.2)

/-- Heap-level `PitchShift.apply`: `librosa.effects.pitch_shift` returns a
new array. -/
def PitchShift.applyH (o : Rng) (prim : ℤ → ℤ → Wave → Wave) (st : PitchShift) : TfmH :=
  fun r t h =>
    let out := h.alloc ((PitchShift.apply o prim st (h.store r) t).1)
    (out.1, t + 1, out.2)

/-- Heap-level `TimeShift.apply`: `np.roll` allocates the rotated copy, and
the zero-padding slice assignment is an in-place `write` to that fresh cell
only. -/
def TimeShift.applyH (o : Rng) (st : TimeShift) : TfmH :=
  fun r t h =>
    let y := h.store r
    let shift := o.randint t (-(st.sr * st.maxShiftSecond)) (st.sr * st.maxShiftSecond)
    let alloc := h.alloc (roll y shift)
    let ra := alloc.1
    let h1 := alloc.2
    let h2 :=
      if st.paddingMode = "zero" then
        if 0 < shift then h1.write ra (zeroFirst (h1.store ra) shift.toNat)
        else h1.write ra (zeroFrom (h1.store ra) shift)
      else h1
    (ra, t + 1, h2)

/-- Heap-level probability gate: the skip branch hands back the same
reference, writing nothing. -/
def AudioTransform.callH (o : Rng) (st : AudioTransform) (ap : TfmH) : TfmH :=
  fun r t h =>
    if st.alwaysApply then ap r t h
    else if o.rand t < st.p then ap r (t + 1) h
    else (r, t + 1, h)

/-- Heap-level `Compose.__call__`. -/
def Compose.callH (ts : List TfmH) : TfmH :=
  fun r t h => ts.foldl (fun acc f => f acc.1 acc.2.1 acc.2.2) (r, t, h)

/-- Heap-level `OneOf.__call__`. -/
def OneOf.callH (o : Rng) (ts : List TfmH) : TfmH :=
  fun r t h =>
    match ts[o.choice t ts.length]? with
    | some f => f r (t + 1) h
    | none => (r, t + 1, h)

/-- Frame discipline for a heap-level transform: every cell already
allocated before the call holds the same contents afterwards (in particular
the input waveform), and the allocator floor only grows. -/
def PreservesHeap (f : TfmH) : Prop :=
  ∀ r t h r', r' < h.next →
    (f r t h).2.2.store r' = h.store r' ∧ h.next ≤ (f r t h).2.2.next

/-!
## Concrete instances used by the witness theorems
-/

/-- A concrete oracle: `rand` draws 0, `uniform` returns its lower bound,
both noise sources are constantly 1, `randint` returns its lower bound,
`choice` returns index 0. -/
def oW : Rng :=
  ⟨fun _ => 0, fun _ lo _ => lo, fun _ _ => 1, fun _ _ => 1,
   fun _ lo _ => lo, fun _ _ => 0⟩

/-- A concrete oracle whose integer draw is always 0 (exercises the
`shift = 0` branch of `TimeShift.apply`). -/
def oShift0 : Rng :=
  ⟨fun _ => 0, fun _ lo _ => lo, fun _ _ => 1, fun _ _ => 1,
   fun _ _ _ => 0, fun _ _ => 0⟩

/-- A concrete oracle whose integer draw is always -1. -/
def oShiftNeg : Rng :=
  ⟨fun _ => 0, fun _ lo _ => lo, fun _ _ => 1, fun _ _ => 1,
   fun _ _ _ => -1, fun _ _ => 0⟩

/-- A concrete oracle whose integer draw is always 2. -/
def oShift2 : Rng :=
  ⟨fun _ => 0, fun _ lo _ => lo, fun _ _ => 1, fun _ _ => 1,
   fun _ _ _ => 2, fun _ _ => 0⟩

/-- A concrete child transform used by witnesses: adds 1 to every sample,
consuming no draw. -/
def apW : Tfm := fun y t => (y.map (fun a => a + 1), t)

/-- A concrete heap-level child transform used by witnesses. -/
def apWH : TfmH := fun r t h => (r, t, h)

/-- Concrete `TimeShift` state in `"zero"` mode. -/
def stTSzero : TimeShift := ⟨⟨true, 1⟩, 2, 32000, "zero"⟩

/-- Concrete `TimeShift` state in `"replace"` mode. -/
def stTSrep : TimeShift := ⟨⟨true, 1⟩, 2, 32000, "replace"⟩

/-- Concrete `GaussianNoiseSNR` state. -/
def stG : GaussianNoiseSNR := ⟨⟨true, 1⟩, 5, 20⟩

/-- Concrete `PinkNoiseSNR` state. -/
def stP : PinkNoiseSNR := ⟨⟨true, 1⟩, 5, 20⟩

/-- Concrete `PitchShift` state. -/
def stPS : PitchShift := ⟨⟨true, 1⟩, 5, 32000⟩

/-- Concrete heap with one allocated cell holding `[5, 6]`. -/
def hW : Heap := ⟨fun _ => [5, 6], 1⟩

/-- Length invariance of a transform: the output waveform has the length of
the input. -/
def LengthPreserving (f : Tfm) : Prop :=
  ∀ y t, (f y t).1.length = y.length

/-! ## Helper lemmas -/

theorem length_randn (o : Rng) (t n : ℕ) : (randn o t n).length = n := by
  simp [randn]

theorem length_pinkDraw (o : Rng) (t n : ℕ) : (pinkDraw o t n).length = n := by
  simp [pinkDraw]

theorem roll_length (y : Wave) (s : ℤ) : (roll y s).length = y.length := by
  simp [roll]

theorem zeroFirst_length (y : Wave) (k : ℕ) : (zeroFirst y k).length = y.length := by
  simp [zeroFirst]
  omega

theorem zeroFrom_length (y : Wave) (s : ℤ) : (zeroFrom y s).length = y.length := by
  simp [zeroFrom]
  omega

theorem peakAmp_nil : peakAmp [] = 0 := rfl

theorem peakAmp_cons (a : ℚ) (l : Wave) : peakAmp (a :: l) = max |a| (peakAmp l) := rfl

theorem peakAmp_nonneg (y : Wave) : 0 ≤ peakAmp y := by
  induction y with
  | nil => exact le_refl 0
  | cons a l ih => exact le_trans ih ((peakAmp_cons a l).symm ▸ le_max_right |a| (peakAmp l))

/-- `AudioTransform.call` preserves length when its apply does. -/
theorem call_lengthPreserving (o : Rng) (st : AudioTransform) (ap : Tfm)
    (hap : LengthPreserving ap) : LengthPreserving (AudioTransform.call o st ap) := by
  intro y t
  unfold AudioTransform.call
  split
  · exact hap y t
  · split
    · exact hap y (t + 1)
    · rfl

/-! ## Claims -/

/-- C3: the probability gate.  With `always_apply` set, `invoke` runs the
apply algorithm unconditionally, consuming no gate draw (the apply sees the
unchanged tick `t`); otherwise one uniform draw `r` is consumed and apply
runs exactly when `r < p`, the input coming back unchanged when `r ≥ p`.
In particular `p = 0` (with draws `≥ 0`) always skips and `p = 1` (with
draws `< 1`) always applies. -/
theorem gate_spec (o : Rng) (st : AudioTransform) (ap : Tfm) (y : Wave) (t : ℕ) :
    (st.alwaysApply = true → AudioTransform.call o st ap y t = ap y t)
    ∧ (st.alwaysApply = false → o.rand t < st.p →
        AudioTransform.call o st ap y t = ap y (t + 1))
    ∧ (st.alwaysApply = false → st.p ≤ o.rand t →
        AudioTransform.call o st ap y t = (y, t + 1))
    ∧ (st.alwaysApply = false → st.p = 0 → 0 ≤ o.rand t →
        AudioTransform.call o st ap y t = (y, t + 1))
    ∧ (st.alwaysApply = false → st.p = 1 → o.rand t < 1 →
        AudioTransform.call o st ap y t = ap y (t + 1)) := by
  refine ⟨fun h => ?_, fun h hr => ?_, fun h hr => ?_, fun h hp hr => ?_, fun h hp hr => ?_⟩
  · simp [AudioTransform.call, h]
  · simp [AudioTransform.call, h, hr]
  · simp [AudioTransform.call, h, not_lt.mpr hr]
  · simp [AudioTransform.call, h, hp, not_lt.mpr hr]
  · simp [AudioTransform.call, h, hp, hr]

/-- C3 witness: concrete gate runs — forced apply, `p = 0` skip, `p = 1`
apply. -/
theorem gate_spec_witness :
    AudioTransform.call oW ⟨true, 1⟩ apW [1] 0 = apW [1] 0
    ∧ AudioTransform.call oW ⟨false, 0⟩ apW [1] 0 = ([1], 1)
    ∧ AudioTransform.call oW ⟨false, 1⟩ apW [1] 0 = apW [1] 1 :=
  ⟨(gate_spec oW ⟨true, 1⟩ apW [1] 0).1 rfl,
   (gate_spec oW ⟨false, 0⟩ apW [1] 0).2.2.2.1 rfl rfl (by decide),
   (gate_spec oW ⟨false, 1⟩ apW [1] 0).2.2.2.2 rfl rfl (by decide)⟩

/-- C6: `Compose` applies its children in construction order, feeding each
output to the next child; the two-element case is exactly sequential
composition under the shared draw stream, and the empty case is the
identity. -/
theorem compose_spec :
    (∀ (f : Tfm) (ts : List Tfm) (y : Wave) (t : ℕ),
      Compose.call ⟨f :: ts⟩ y t = Compose.call ⟨ts⟩ (f y t).1 (f y t).2)
    ∧ (∀ (A B : Tfm) (y : Wave) (t : ℕ),
      Compose.call ⟨[A, B]⟩ y t = B (A y t).1 (A y t).2)
    ∧ (∀ (y : Wave) (t : ℕ), Compose.call ⟨[]⟩ y t = (y, t)) :=
  ⟨fun _ _ _ _ => rfl, fun _ _ _ _ => rfl, fun _ _ => rfl⟩

/-- C7: `OneOf` draws one index (consuming one tick) and delegates to
exactly that child, which receives the waveform untouched and the advanced
tick — so the child's own gate still decides whether its apply runs. -/
theorem oneOf_spec (o : Rng) (ts : List Tfm) (y : Wave) (t : ℕ)
    (h : o.choice t ts.length < ts.length) :
    OneOf.call o ⟨ts⟩ y t = (ts.get ⟨o.choice t ts.length, h⟩) y (t + 1) := by
  unfold OneOf.call
  simp [List.getElem?_eq_getElem h]

/-- C7 witness: a singleton list delegates to its only child. -/
theorem oneOf_spec_witness :
    OneOf.call oW ⟨[apW]⟩ [1, 2] 0 = apW [1, 2] 1 :=
  oneOf_spec oW [apW] [1, 2] 0 (by decide)

/-- C4 counterexample: `p = 2` lies outside [0,1], yet construction
succeeds — neither `AudioTransform.__init__` nor any subclass constructor
validates `p`, so no InvalidConfiguration error is possible. -/
theorem construction_accepts_bad_p_cex :
    (1 : ℚ) < 2
    ∧ AudioTransform.init false 2 = .ok ⟨false, 2⟩
    ∧ GaussianNoiseSNR.init false 2 5 20 = .ok ⟨⟨false, 2⟩, 5, 20⟩ :=
  ⟨by norm_num, rfl, rfl⟩

/-- C4 amended: construction never validates `p`.  Every constructor
succeeds for every `p` (inside or outside [0,1]), merely storing the value;
the only construction-time check in the library is `TimeShift`'s
padding-mode assertion, which is independent of `p`. -/
theorem construction_accepts_any_p (a : Bool) (p mn mx : ℚ) (ms sr mss tsr : ℤ) :
    AudioTransform.init a p = .ok ⟨a, p⟩
    ∧ GaussianNoiseSNR.init a p mn mx = .ok ⟨⟨a, p⟩, mn, mx⟩
    ∧ PinkNoiseSNR.init a p mn mx = .ok ⟨⟨a, p⟩, mn, mx⟩
    ∧ PitchShift.init a p ms sr = .ok ⟨⟨a, p⟩, ms, sr⟩
    ∧ TimeShift.init a p mss tsr "replace" = .ok ⟨⟨a, p⟩, mss, tsr, "replace"⟩ := by
  refine ⟨rfl, rfl, rfl, rfl, ?_⟩
  simp [TimeShift.init, AudioTransform.init, Except.bind]

/-- C9: `TimeShift` construction validates only the padding mode: an
unrecognized mode (e.g. `"bogus"`) fails at construction time with the
assertion error, before any invoke, while both recognized modes are
accepted; `TimeShift.apply` itself is total, performing no further check
on the mode. -/
theorem timeShift_padding_validation (a : Bool) (p : ℚ) (mss sr : ℤ) :
    TimeShift.init a p mss sr "bogus"
        = .error "padding_mode must be either replace or zero"
    ∧ TimeShift.init a p mss sr "replace" = .ok ⟨⟨a, p⟩, mss, sr, "replace"⟩
    ∧ TimeShift.init a p mss sr "zero" = .ok ⟨⟨a, p⟩, mss, sr, "zero"⟩ := by
  refine ⟨?_, ?_, ?_⟩ <;> simp [TimeShift.init, AudioTransform.init, Except.bind]

/-- C2: every transform and composition in the library preserves the
waveform length through its gated `invoke`; the pitch-shift case assumes
only the documented contract of the external librosa primitive, and the
composition cases hold for arbitrary length-preserving children (hence for
arbitrary nesting).  The sample type (the model of the numpy dtype) is
`ℚ` throughout, preserved by typing. -/
theorem length_invariance :
    (∀ (o : Rng) (tp : ℚ → ℚ) (st : GaussianNoiseSNR),
        LengthPreserving (GaussianNoiseSNR.invoke o tp st))
    ∧ (∀ (o : Rng) (tp : ℚ → ℚ) (st : PinkNoiseSNR),
        LengthPreserving (PinkNoiseSNR.invoke o tp st))
    ∧ (∀ (o : Rng) (prim : ℤ → ℤ → Wave → Wave) (st : PitchShift),
        (∀ sr n z, (prim sr n z).length = z.length) →
        LengthPreserving (PitchShift.invoke o prim st))
    ∧ (∀ (o : Rng) (st : TimeShift), LengthPreserving (TimeShift.invoke o st))
    ∧ (∀ ts : List Tfm, (∀ f ∈ ts, LengthPreserving f) →
        LengthPreserving (Compose.call ⟨ts⟩))
    ∧ (∀ (o : Rng) (ts : List Tfm), (∀ f ∈ ts, LengthPreserving f) →
        LengthPreserving (OneOf.call o ⟨ts⟩)) := by
  refine ⟨?_, ?_, ?_, ?_, ?_, ?_⟩
  · intro o tp st
    apply call_lengthPreserving
    intro y t
    simp [GaussianNoiseSNR.apply, length_randn]
  · intro o tp st
    apply call_lengthPreserving
    intro y t
    simp [PinkNoiseSNR.apply, length_pinkDraw]
  · intro o prim st hprim
    apply call_lengthPreserving
    intro y t
    simp [PitchShift.apply, hprim]
  · intro o st
    apply call_lengthPreserving
    intro y t
    unfold TimeShift.apply
    simp only
    split
    · split
      · simp [zeroFirst_length, roll_length]
      · simp [zeroFrom_length, roll_length]
    · simp [roll_length]
  · intro ts
    induction ts with
    | nil => intro _ y t; rfl
    | cons f ts ih =>
      intro hts y t
      have hstep : Compose.call ⟨f :: ts⟩ y t = Compose.call ⟨ts⟩ (f y t).1 (f y t).2 := rfl
      rw [hstep]
      calc (Compose.call ⟨ts⟩ (f y t).1 (f y t).2).1.length
          = (f y t).1.length := ih (fun g hg => hts g (List.mem_cons_of_mem f hg)) (f y t).1 (f y t).2
        _ = y.length := hts f (List.mem_cons_self f ts) y t
  · intro o ts hts y t
    unfold OneOf.call
    simp only
    cases hidx : ts[o.choice t ts.length]? with
    | none => rfl
    | some f => exact hts f (List.getElem?_mem hidx) y (t + 1)

/-- C2 witness: concrete length computations through the theorem. -/
theorem length_invariance_witness :
    ((PitchShift.invoke oW (fun _ _ z => z) stPS) [1, 2, 3] 0).1.length = 3
    ∧ ((TimeShift.invoke oW stTSzero) [1, 2, 3, 4] 0).1.length = 4
    ∧ ((Compose.call ⟨[apW, apW]⟩) [1, 2] 0).1.length = 2 :=
  ⟨length_invariance.2.2.1 oW (fun _ _ z => z) stPS (fun _ _ _ => rfl) [1, 2, 3] 0,
   length_invariance.2.2.2.1 oW stTSzero [1, 2, 3, 4] 0,
   length_invariance.2.2.2.2.1 [apW, apW]
     (by
       intro f hf
       simp only [List.mem_cons, List.not_mem_nil, or_false] at hf
       rcases hf with h | h <;> (subst h; intro z u; simp [apW]))
     [1, 2] 0⟩

/-- C8: both integer draws are half-open.  `PitchShift.apply` passes
`(-max_steps, max_steps)` and `TimeShift.apply` passes
`(-sr*max_shift_second, sr*max_shift_second)` to the uniform-integer
primitive, whose contract (`randint(lo, hi)` lands in `[lo, hi)`) then puts
the drawn step count in `[-max_steps, max_steps)` and the drawn shift in
`[-sr*max_shift_second, sr*max_shift_second)` — the positive bound is never
drawn — and each apply consumes exactly that draw. -/
theorem halfOpen_integer_draws (o : Rng) (prim : ℤ → ℤ → Wave → Wave)
    (stp : PitchShift) (stt : TimeShift) (y : Wave) (t : ℕ)
    (ho : ∀ u lo hi, lo < hi → lo ≤ o.randint u lo hi ∧ o.randint u lo hi < hi)
    (hp : 0 < stp.maxSteps) (ht : 0 < stt.sr * stt.maxShiftSecond) :
    (-stp.maxSteps ≤ o.randint t (-stp.maxSteps) stp.maxSteps
      ∧ o.randint t (-stp.maxSteps) stp.maxSteps < stp.maxSteps
      ∧ PitchShift.apply o prim stp y t
          = (prim stp.sr (o.randint t (-stp.maxSteps) stp.maxSteps) y, t + 1))
    ∧ (-(stt.sr * stt.maxShiftSecond)
          ≤ o.randint t (-(stt.sr * stt.maxShiftSecond)) (stt.sr * stt.maxShiftSecond)
      ∧ o.randint t (-(stt.sr * stt.maxShiftSecond)) (stt.sr * stt.maxShiftSecond)
          < stt.sr * stt.maxShiftSecond
      ∧ (stt.paddingMode = "replace" →
          TimeShift.apply o stt y t
            = (roll y (o.randint t (-(stt.sr * stt.maxShiftSecond))
                (stt.sr * stt.maxShiftSecond)), t + 1))) := by
  have hp2 : -stp.maxSteps < stp.maxSteps := by omega
  have ht2 : -(stt.sr * stt.maxShiftSecond) < stt.sr * stt.maxShiftSecond := by omega
  obtain ⟨hpl, hpr⟩ := ho t (-stp.maxSteps) stp.maxSteps hp2
  obtain ⟨htl, htr⟩ := ho t (-(stt.sr * stt.maxShiftSecond)) (stt.sr * stt.maxShiftSecond) ht2
  refine ⟨⟨hpl, hpr, rfl⟩, htl, htr, fun hm => ?_⟩
  unfold TimeShift.apply
  rw [hm]
  simp

/-- C8 witness: with the lower-bound oracle, the drawn pitch step is
`-max_steps` itself, inside the half-open range. -/
theorem halfOpen_integer_draws_witness :
    (-(5 : ℤ) ≤ oW.randint 0 (-5) 5 ∧ oW.randint 0 (-5) 5 < 5)
    ∧ (TimeShift.apply oW stTSrep [1, 2] 0
        = (roll [1, 2] (oW.randint 0 (-64000) 64000), 1)) :=
  ⟨⟨(halfOpen_integer_draws oW (fun _ _ z => z) stPS stTSrep [1, 2] 0
      (fun _ lo _ h => ⟨le_refl lo, h⟩) (by decide) (by decide)).1.1,
    (halfOpen_integer_draws oW (fun _ _ z => z) stPS stTSrep [1, 2] 0
      (fun _ lo _ h => ⟨le_refl lo, h⟩) (by decide) (by decide)).1.2.1⟩,
   (halfOpen_integer_draws oW (fun _ _ z => z) stPS stTSrep [1, 2] 0
      (fun _ lo _ h => ⟨le_refl lo, h⟩) (by decide) (by decide)).2.2.2 rfl⟩

theorem peakAmp_map_mul (k : ℚ) (hk : 0 ≤ k) (l : Wave) :
    peakAmp (l.map (fun b => b * k)) = peakAmp l * k := by
  induction l with
  | nil => simp [peakAmp]
  | cons a l ih =>
    simp only [List.map_cons, peakAmp_cons, ih]
    rw [abs_mul, abs_of_nonneg hk, max_mul_of_nonneg _ _ hk]

/-- Subtracting the input from the mixed signal recovers the scaled noise. -/
theorem zipWith_mix_sub (g : ℚ → ℚ) :
    ∀ (y w : Wave), w.length = y.length →
      (List.zipWith (fun a b => a + g b) y w).zipWith (fun a b => a - b) y = w.map g := by
  intro y
  induction y with
  | nil =>
    intro w hw
    rw [List.length_eq_zero.mp hw]
    rfl
  | cons a y ih =>
    intro w hw
    cases w with
    | nil => simp at hw
    | cons b w =>
      simp only [List.zipWith_cons_cons, List.map_cons]
      congr 1
      · ring
      · exact ih w (by simpa using hw)

/-- Peak amplitude of the noise component added by the SNR mix: exactly the
target `c` once the noise is peak-normalized. -/
theorem mix_peak (y w : Wave) (c : ℚ) (hw : w.length = y.length)
    (hpw : peakAmp w ≠ 0) (hc : 0 ≤ c) :
    peakAmp ((List.zipWith (fun a b => a + b * 1 / peakAmp w * c) y w).zipWith
      (fun a b => a - b) y) = c := by
  rw [zipWith_mix_sub (fun b => b * 1 / peakAmp w * c) y w hw]
  rw [show (fun (b : ℚ) => b * 1 / peakAmp w * c) = fun b => b * (1 / peakAmp w * c) from
    funext fun b => by ring]
  rw [peakAmp_map_mul _ (mul_nonneg (one_div_nonneg.mpr (peakAmp_nonneg w)) hc)]
  rw [← mul_assoc, mul_one_div_cancel hpw, one_mul]

/-- C5: for both SNR noise transforms, the drawn `snr` lies in
`[min_snr, max_snr]` (uniform-draw contract), the generated noise has the
length of the signal, and the peak amplitude of the added noise component —
output minus input, elementwise — equals `a_signal / 10^(snr/20)`, i.e.
`peakAmp y / tenPow (snr/20)` where `tenPow` is the float power primitive
(positive on its argument) and the noise has nonzero peak. -/
theorem snr_noise_peak (o : Rng) (tenPow : ℚ → ℚ) (stg : GaussianNoiseSNR)
    (stpk : PinkNoiseSNR) (y : Wave) (t : ℕ)
    (hu : ∀ u lo hi, lo ≤ hi → lo ≤ o.unif u lo hi ∧ o.unif u lo hi ≤ hi)
    (hg : stg.minSnr ≤ stg.maxSnr)
    (hpk : stpk.minSnr ≤ stpk.maxSnr)
    (hgpow : 0 < tenPow (o.unif t stg.minSnr stg.maxSnr / 20))
    (hppow : 0 < tenPow (o.unif t stpk.minSnr stpk.maxSnr / 20))
    (hgw : peakAmp (randn o (t + 1) y.length) ≠ 0)
    (hpw : peakAmp (pinkDraw o (t + 1) y.length) ≠ 0) :
    (stg.minSnr ≤ o.unif t stg.minSnr stg.maxSnr
      ∧ o.unif t stg.minSnr stg.maxSnr ≤ stg.maxSnr
      ∧ (randn o (t + 1) y.length).length = y.length
      ∧ peakAmp (((GaussianNoiseSNR.apply o tenPow stg y t).1).zipWith
          (fun a b => a - b) y)
        = peakAmp y / tenPow (o.unif t stg.minSnr stg.maxSnr / 20))
    ∧ (stpk.minSnr ≤ o.unif t stpk.minSnr stpk.maxSnr
      ∧ o.unif t stpk.minSnr stpk.maxSnr ≤ stpk.maxSnr
      ∧ (pinkDraw o (t + 1) y.length).length = y.length
      ∧ peakAmp (((PinkNoiseSNR.apply o tenPow stpk y t).1).zipWith
          (fun a b => a - b) y)
        = peakAmp y / tenPow (o.unif t stpk.minSnr stpk.maxSnr / 20)) := by
  obtain ⟨h1, h2⟩ := hu t stg.minSnr stg.maxSnr hg
  obtain ⟨h3, h4⟩ := hu t stpk.minSnr stpk.maxSnr hpk
  refine ⟨⟨h1, h2, length_randn o (t + 1) y.length, ?_⟩,
          ⟨h3, h4, length_pinkDraw o (t + 1) y.length, ?_⟩⟩
  · show peakAmp ((List.zipWith _ y (randn o (t + 1) y.length)).zipWith _ y) = _
    exact mix_peak y (randn o (t + 1) y.length) _
      (length_randn o (t + 1) y.length) hgw
      (div_nonneg (peakAmp_nonneg y) hgpow.le)
  · show peakAmp ((List.zipWith _ y (pinkDraw o (t + 1) y.length)).zipWith _ y) = _
    exact mix_peak y (pinkDraw o (t + 1) y.length) _
      (length_pinkDraw o (t + 1) y.length) hpw
      (div_nonneg (peakAmp_nonneg y) hppow.le)

/-- C5 witness: with unit noise and `tenPow` constantly 10 on a one-sample
signal, the added-noise peak equals `peakAmp [1] / 10`. -/
theorem snr_noise_peak_witness :
    peakAmp (((GaussianNoiseSNR.apply oW (fun _ => 10) stG [1] 0).1).zipWith
      (fun a b => a - b) [1]) = peakAmp [1] / 10 :=
  (snr_noise_peak oW (fun _ => 10) stG stP [1] 0
    (fun _ lo _ h => ⟨le_refl lo, h⟩) (by decide) (by decide)
    (by decide) (by decide) (by decide) (by decide)).1.2.2.2

/-- Index view of `np.roll`: sample `i` of the rolled waveform is sample
`(i - s) mod n` of the original. -/
theorem roll_getElem? (y : Wave) (s : ℤ) (i : ℕ) (hi : i < y.length) :
    (roll y s)[i]? = y[(((i : ℤ) - s) % (y.length : ℤ)).toNat]? := by
  have hn : 0 < y.length := Nat.lt_of_le_of_lt (Nat.zero_le i) hi
  have hn' : (0 : ℤ) < (y.length : ℤ) := by exact_mod_cast hn
  have hk0 : 0 ≤ (-s) % (y.length : ℤ) := Int.emod_nonneg _ hn'.ne'
  unfold roll
  rw [List.getElem?_rotate hi]
  congr 1
  have hcast : ((((-s) % (y.length : ℤ)).toNat : ℤ)) = (-s) % (y.length : ℤ) :=
    Int.toNat_of_nonneg hk0
  have key : (((i + ((-s) % (y.length : ℤ)).toNat) % y.length : ℕ) : ℤ)
      = ((i : ℤ) - s) % (y.length : ℤ) := by
    push_cast [hcast]
    rw [Int.emod_def (-s) (y.length : ℤ)]
    rw [show (i : ℤ) + (-s - (y.length : ℤ) * (-s / (y.length : ℤ)))
        = ((i : ℤ) - s) + (y.length : ℤ) * (-(-s / (y.length : ℤ))) from by ring]
    rw [Int.add_mul_emod_self_left]
  have hr0 : 0 ≤ ((i : ℤ) - s) % (y.length : ℤ) := Int.emod_nonneg _ hn'.ne'
  refine Int.natCast_inj.mp ?_
  rw [Int.toNat_of_nonneg hr0]
  exact key

/-- C1 (amended): `TimeShift.apply` draws a shift `s` (one tick) and
circularly rotates the waveform by `s` (sample `i` of the result is sample
`(i - s) mod n` of the input).  In `"replace"` mode the result is exactly
this rotation.  In `"zero"` mode the wrapped-in region is then zeroed: for
`s > 0` the first `s` samples are 0 and the rest keep their rotated values;
for `s < 0` the last `|s|` samples are 0 and the rest keep their rotated
values; for `s = 0` the Python slice `augmented[0:] = 0` zeroes the entire
output (it does NOT return the input unchanged). -/
theorem timeShift_apply_characterization (o : Rng) (st : TimeShift) (y : Wave)
    (t : ℕ) (s : ℤ)
    (hs : s = o.randint t (-(st.sr * st.maxShiftSecond)) (st.sr * st.maxShiftSecond)) :
    (TimeShift.apply o st y t).2 = t + 1
    ∧ (TimeShift.apply o st y t).1.length = y.length
    ∧ (st.paddingMode = "replace" → ∀ i, i < y.length →
        (TimeShift.apply o st y t).1[i]? = y[(((i : ℤ) - s) % (y.length : ℤ)).toNat]?)
    ∧ (st.paddingMode = "zero" → 0 < s →
        (∀ i, i < y.length → i < s.toNat →
          (TimeShift.apply o st y t).1[i]? = some 0)
        ∧ (∀ i, i < y.length → s.toNat ≤ i →
          (TimeShift.apply o st y t).1[i]?
            = y[(((i : ℤ) - s) % (y.length : ℤ)).toNat]?))
    ∧ (st.paddingMode = "zero" → s < 0 →
        (∀ i, i < ((y.length : ℤ) + s).toNat →
          (TimeShift.apply o st y t).1[i]?
            = y[(((i : ℤ) - s) % (y.length : ℤ)).toNat]?)
        ∧ (∀ i, i < y.length → ((y.length : ℤ) + s).toNat ≤ i →
          (TimeShift.apply o st y t).1[i]? = some 0))
    ∧ (st.paddingMode = "zero" → s = 0 → ∀ i, i < y.length →
        (TimeShift.apply o st y t).1[i]? = some 0) := by
  have happ : TimeShift.apply o st y t
      = (if st.paddingMode = "zero" then
          if 0 < s then zeroFirst (roll y s) s.toNat else zeroFrom (roll y s) s
        else roll y s, t + 1) := by
    rw [hs]; rfl
  refine ⟨by rw [happ], ?_, ?_, ?_, ?_, ?_⟩
  · rw [happ]
    simp only
    split
    · split
      · rw [zeroFirst_length, roll_length]
      · rw [zeroFrom_length, roll_length]
    · rw [roll_length]
  · intro hm i hi
    rw [happ]
    simp only [hm]
    rw [if_neg (by decide)]
    exact roll_getElem? y s i hi
  · intro hm hpos
    constructor
    · intro i hi hik
      rw [happ]
      simp only [hm]
      rw [if_pos trivial, if_pos hpos]
      unfold zeroFirst
      rw [List.getElem?_append_left (by simp [roll_length]; omega)]
      rw [List.getElem?_map, List.getElem?_take_of_lt hik,
        List.getElem?_eq_getElem (by rw [roll_length]; exact hi)]
      rfl
    · intro i hi hik
      rw [happ]
      simp only [hm]
      rw [if_pos trivial, if_pos hpos]
      unfold zeroFirst
      rw [List.getElem?_append_right (by simp [roll_length]; omega)]
      simp only [List.length_map, List.length_take, roll_length]
      rw [show min s.toNat y.length = s.toNat from by omega]
      rw [List.getElem?_drop]
      rw [show s.toNat + (i - s.toNat) = i from by omega]
      exact roll_getElem? y s i hi
  · intro hm hneg
    have hple : pyStart y.length s = ((y.length : ℤ) + s).toNat := by
      unfold pyStart
      rw [if_pos hneg]
    have hmn : ((y.length : ℤ) + s).toNat ≤ y.length := by omega
    constructor
    · intro i hik
      have hi : i < y.length := by omega
      rw [happ]
      simp only [hm]
      rw [if_pos trivial, if_neg (by omega : ¬ (0 : ℤ) < s)]
      unfold zeroFrom
      rw [roll_length, hple]
      rw [List.getElem?_append_left (by simp [roll_length]; omega)]
      rw [List.getElem?_take_of_lt hik]
      exact roll_getElem? y s i hi
    · intro i hi hik
      rw [happ]
      simp only [hm]
      rw [if_pos trivial, if_neg (by omega : ¬ (0 : ℤ) < s)]
      unfold zeroFrom
      rw [roll_length, hple]
      rw [List.getElem?_append_right (by simp [roll_length]; omega)]
      simp only [List.length_take, roll_length]
      rw [List.getElem?_map, List.getElem?_drop]
      rw [show ((y.length : ℤ) + s).toNat
          + (i - min (((y.length : ℤ) + s).toNat) y.length) = i from by omega]
      rw [List.getElem?_eq_getElem (by rw [roll_length]; exact hi)]
      rfl
  · intro hm h0 i hi
    rw [happ]
    simp only [hm, h0]
    rw [if_pos trivial]
    rw [if_neg (by decide : ¬ (0 : ℤ) < 0)]
    unfold zeroFrom pyStart
    simp only [if_neg (by decide : ¬ (0 : ℤ) < 0), Int.toNat_zero, min_zero,
      List.take_zero, List.nil_append, List.drop_zero]
    rw [List.getElem?_map,
      List.getElem?_eq_getElem (by rw [roll_length]; exact hi)]
    rfl

/-- C1 counterexample: in `"zero"` mode with drawn shift 0, the claim
predicts the output equals the input, but `augmented[0:] = 0` zeroes the
whole waveform: on `[1, 2]` the code returns `[0, 0]`, not `[1, 2]`. -/
theorem timeShift_zero_shift_cex :
    oShift0.randint 0 (-(stTSzero.sr * stTSzero.maxShiftSecond))
        (stTSzero.sr * stTSzero.maxShiftSecond) = 0
    ∧ (TimeShift.apply oShift0 stTSzero [1, 2] 0).1 = [0, 0]
    ∧ (TimeShift.apply oShift0 stTSzero [1, 2] 0).1 ≠ [1, 2] := by
  refine ⟨rfl, ?_, ?_⟩ <;> decide

/-- C1 witness: shift -1 in `"zero"` mode on `[1, 2, 3]`: sample 0 keeps
its rotated value 2 and the last sample is zeroed. -/
theorem timeShift_apply_characterization_witness :
    (TimeShift.apply oShiftNeg stTSzero [1, 2, 3] 0).1[0]? = some 2
    ∧ (TimeShift.apply oShiftNeg stTSzero [1, 2, 3] 0).1[2]? = some 0 := by
  have h := timeShift_apply_characterization oShiftNeg stTSzero [1, 2, 3] 0 (-1) rfl
  refine ⟨?_, ?_⟩
  · have h1 := (h.2.2.2.2.1 rfl (by decide)).1 0 (by decide)
    exact h1.trans (by decide)
  · exact (h.2.2.2.2.1 rfl (by decide)).2 2 (by decide) (by decide)

theorem alloc_frame (h : Heap) (v : Wave) (r' : ℕ) (hr : r' < h.next) :
    ((h.alloc v).2).store r' = h.store r' := by
  unfold Heap.alloc
  simp only
  rw [if_neg (by omega)]

theorem alloc_store_self (h : Heap) (v : Wave) :
    ((h.alloc v).2).store (h.alloc v).1 = v := by
  unfold Heap.alloc
  simp

theorem alloc_write_frame (h : Heap) (v w : Wave) (r' : ℕ) (hr : r' < h.next) :
    (((h.alloc v).2).write (h.alloc v).1 w).store r' = h.store r' := by
  unfold Heap.alloc Heap.write
  simp only
  rw [if_neg (by omega), if_neg (by omega)]

theorem write_store_self (h : Heap) (r : ℕ) (v : Wave) :
    ((h.write r v).store) r = v := by
  unfold Heap.write
  simp

/-- C10: no transform or composition mutates any pre-existing waveform
cell (in particular the input): every apply allocates its result fresh —
`TimeShift`'s slice assignment writes only to the cell `np.roll` just
allocated — the gate's skip branch hands back the very same reference with
the heap untouched, the compositions preserve whatever their children
preserve, and the cell returned by the heap-level `TimeShift` holds exactly
the value-level result. -/
theorem no_input_mutation (o : Rng) (tenPow : ℚ → ℚ) (prim : ℤ → ℤ → Wave → Wave)
    (stg : GaussianNoiseSNR) (stpk : PinkNoiseSNR) (stps : PitchShift)
    (stt : TimeShift) (gst : AudioTransform) :
    PreservesHeap (GaussianNoiseSNR.applyH o tenPow stg)
    ∧ PreservesHeap (PinkNoiseSNR.applyH o tenPow stpk)
    ∧ PreservesHeap (PitchShift.applyH o prim stps)
    ∧ PreservesHeap (TimeShift.applyH o stt)
    ∧ (∀ ap, PreservesHeap ap → PreservesHeap (AudioTransform.callH o gst ap))
    ∧ (∀ ts : List TfmH, (∀ f ∈ ts, PreservesHeap f) →
        PreservesHeap (Compose.callH ts))
    ∧ (∀ ts : List TfmH, (∀ f ∈ ts, PreservesHeap f) →
        PreservesHeap (OneOf.callH o ts))
    ∧ (∀ ap r t h, gst.alwaysApply = false → gst.p ≤ o.rand t →
        AudioTransform.callH o gst ap r t h = (r, t + 1, h))
    ∧ (∀ r t h, (TimeShift.applyH o stt r t h).2.2.store (TimeShift.applyH o stt r t h).1
        = (TimeShift.apply o stt (h.store r) t).1) := by
  refine ⟨?_, ?_, ?_, ?_, ?_, ?_, ?_, ?_, ?_⟩
  · intro r t h r' hr
    exact ⟨alloc_frame h _ r' hr, Nat.le_succ h.next⟩
  · intro r t h r' hr
    exact ⟨alloc_frame h _ r' hr, Nat.le_succ h.next⟩
  · intro r t h r' hr
    exact ⟨alloc_frame h _ r' hr, Nat.le_succ h.next⟩
  · intro r t h r' hr
    unfold TimeShift.applyH
    simp only
    split
    · split
      · exact ⟨alloc_write_frame h _ _ r' hr, Nat.le_succ h.next⟩
      · exact ⟨alloc_write_frame h _ _ r' hr, Nat.le_succ h.next⟩
    · exact ⟨alloc_frame h _ r' hr, Nat.le_succ h.next⟩
  · intro ap hap r t h r' hr
    unfold AudioTransform.callH
    split
    · exact hap r t h r' hr
    · split
      · exact hap r (t + 1) h r' hr
      · exact ⟨rfl, le_refl h.next⟩
  · intro ts
    induction ts with
    | nil => intro _ r t h r' hr; exact ⟨rfl, le_refl h.next⟩
    | cons f ts ih =>
      intro hts r t h r' hr
      have hf := hts f (List.mem_cons_self f ts) r t h r' hr
      have ihh := ih (fun g hg => hts g (List.mem_cons_of_mem f hg))
        (f r t h).1 (f r t h).2.1 (f r t h).2.2 r' (lt_of_lt_of_le hr hf.2)
      exact ⟨ihh.1.trans hf.1, hf.2.trans ihh.2⟩
  · intro ts hts r t h r' hr
    unfold OneOf.callH
    cases hidx : ts[o.choice t ts.length]? with
    | none => exact ⟨rfl, le_refl h.next⟩
    | some f => exact hts f (List.getElem?_mem hidx) r (t + 1) h r' hr
  · intro ap r t h ha hp
    unfold AudioTransform.callH
    rw [if_neg (by simp [ha]), if_neg (not_lt.mpr hp)]
  · intro r t h
    unfold TimeShift.applyH TimeShift.apply
    simp only
    split
    · split
      · rw [write_store_self, alloc_store_self]
      · rw [write_store_self, alloc_store_self]
    · exact alloc_store_self h _

/-- C10 witness: running the heap-level `TimeShift` on the one-cell heap
leaves that input cell's contents intact. -/
theorem no_input_mutation_witness :
    (TimeShift.applyH oShift2 stTSzero 0 0 hW).2.2.store 0 = [5, 6] :=
  ((no_input_mutation oShift2 (fun _ => 10) (fun _ _ z => z) stG stP stPS stTSzero
    ⟨false, 0⟩).2.2.2.1 0 0 hW 0 (by decide)).1.trans rfl
